import Mathlib

/-
Verification development for the `nomad-analysis` repository
(src/nomad_analysis/jupyter/schema.py and src/nomad_analysis/utils.py).

Python strings are modelled as Lean `String` (a wrapper around `List Char`);
the Python string methods used by the code (`split`, `startswith`, `lower`,
`replace`) are re-implemented below on `String.data` so that their behaviour
can be reasoned about directly.  Stateful code (the section quantities and the
raw-file store of the upload) is modelled by explicit state passing; fallible
remote calls are modelled by `Option`/`Except` results.
-/

namespace NomadAnalysis

/-- Python `str.split(sep)` for a single-character separator, on `List Char`:
splits at every occurrence of `sep`; the empty list splits to `[[]]`. -/
def splitOnChar (sep : Char) : List Char → List (List Char)
  | [] => [[]]
  | c :: cs =>
    if c = sep then [] :: splitOnChar sep cs
    else
      match splitOnChar sep cs with
      | [] => [[c]]
      | h :: t => (c :: h) :: t

/-- Python `str.split(sep)` on `String`, for a single-character separator. -/
def pySplit (sep : Char) (s : String) : List String :=
  (splitOnChar sep s.data).map String.mk

/-- Python `str.startswith(p)`. -/
def pyStartsWith (p s : String) : Bool :=
  p.data.isPrefixOf s.data

/-- Python `str.lower()`. -/
def pyLower (s : String) : String :=
  String.mk (s.data.map Char.toLower)

/-- Python `s.replace(' ', '_')` (single-character replacement). -/
def pyReplaceSpaceByUnderscore (s : String) : String :=
  String.mk (s.data.map fun c => if c = ' ' then '_' else c)

theorem string_data_append (s t : String) : (s ++ t).data = s.data ++ t.data := rfl

theorem string_ext_data {s t : String} (h : s.data = t.data) : s = t := by
  cases s; cases t; exact congrArg String.mk h

theorem splitOnChar_ne_nil (sep : Char) (l : List Char) : splitOnChar sep l ≠ [] := by
  induction l with
  | nil => simp [splitOnChar]
  | cons c cs ih =>
    by_cases hc : c = sep
    · simp [splitOnChar, hc]
    · simp only [splitOnChar, if_neg hc]
      cases hsp : splitOnChar sep cs with
      | nil => simp
      | cons h t => simp

/-- Splitting a list with the separator inserted between two parts splits each
part independently. -/
theorem splitOnChar_append_cons (sep : Char) (a b : List Char) :
    splitOnChar sep (a ++ sep :: b) = splitOnChar sep a ++ splitOnChar sep b := by
  induction a with
  | nil => simp [splitOnChar]
  | cons c a' ih =>
    by_cases hc : c = sep
    · simp [splitOnChar, hc, ih]
    · simp only [List.cons_append, splitOnChar, if_neg hc, List.append_eq]
      rw [ih]
      cases hsp : splitOnChar sep a' with
      | nil => exact absurd hsp (splitOnChar_ne_nil sep a')
      | cons h t => simp

/-- A list containing no separator splits to itself alone. -/
theorem splitOnChar_of_not_mem (sep : Char) (a : List Char) (h : sep ∉ a) :
    splitOnChar sep a = [a] := by
  induction a with
  | nil => rfl
  | cons c a' ih =>
    have hc : c ≠ sep := fun hcs => h (hcs ▸ List.mem_cons_self c a')
    have ha' : sep ∉ a' := fun hm => h (List.mem_cons_of_mem c hm)
    simp [splitOnChar, hc, ih ha']

/-- No component of a split contains the separator. -/
theorem splitOnChar_not_mem (sep : Char) (l : List Char) :
    ∀ p ∈ splitOnChar sep l, sep ∉ p := by
  induction l with
  | nil =>
    intro p hp
    simp [splitOnChar] at hp
    simp [hp]
  | cons c cs ih =>
    intro p hp
    by_cases hc : c = sep
    · simp only [splitOnChar, if_pos hc] at hp
      rcases List.mem_cons.mp hp with hp | hp
      · simp [hp]
      · exact ih p hp
    · simp only [splitOnChar, if_neg hc] at hp
      cases hsp : splitOnChar sep cs with
      | nil => exact absurd hsp (splitOnChar_ne_nil sep cs)
      | cons h t =>
        rw [hsp] at hp
        rcases List.mem_cons.mp hp with hp | hp
        · subst hp
          intro hmem
          rcases List.mem_cons.mp hmem with h1 | h1
          · exact hc h1.symm
          · exact ih h (hsp ▸ List.mem_cons_self h t) h1
        · exact ih p (hsp ▸ List.mem_cons_of_mem h hp)

theorem pySplit_eq_pair {sep : Char} {v : String} {a b : String}
    (h : pySplit sep v = [a, b]) : splitOnChar sep v.data = [a.data, b.data] := by
  unfold pySplit at h
  cases hsp : splitOnChar sep v.data with
  | nil => exact absurd hsp (splitOnChar_ne_nil sep v.data)
  | cons x t =>
    rw [hsp] at h
    cases t with
    | nil => simp at h
    | cons y t' =>
      cases t' with
      | nil =>
        simp only [List.map_cons, List.map_nil, List.cons.injEq, and_true] at h
        obtain ⟨hx, hy⟩ := h
        have hx' : x = a.data := by rw [← hx]
        have hy' : y = b.data := by rw [← hy]
        rw [hx', hy']
      | cons z t'' => simp at h

/-- A resolved remote section, as observed through `resolved_section.get(...)`
in `get_inputs_from_search` and through attribute access in
`set_name_for_inputs`: only the `name` and `lab_id` attributes are read, and a
missing attribute reads as `None`. -/
structure RSection where
  name : Option String
  lab_id : Option String
deriving DecidableEq

/-- The candidate-reference dict built inside `reset_input_references`
(`m_proxy_value`, `name`, `lab_id` keys). -/
structure Ref where
  m_proxy_value : String
  name : Option String
  lab_id : Option String
deriving DecidableEq

/-- A `SectionReference` in `self.inputs`: the proxy value of its `reference`
quantity (`none` when no reference is set) and its display `name`. -/
structure InputRef where
  reference : Option String
  name : Option String
deriving DecidableEq

/-- A search / query result entry: only `entry_id` and `upload_id` are used. -/
structure Entry where
  entry_id : String
  upload_id : String
deriving DecidableEq

/-- `normalize_m_proxy_value` from `ELNJupyterAnalysis.reset_input_references`:
unpacks `m_proxy_value.split('#')` into two parts and prepends a forward slash
to the section path when it is missing.  A failed unpacking (no `'#'`, or more
than one) raises inside the `try` block; the handler logs a warning and the
original value is returned unchanged. -/
def normalize_m_proxy_value (v : String) : String :=
  match pySplit '#' v with
  | [entry_path, section_path] =>
    if pyStartsWith "/" section_path = false then entry_path ++ "#/" ++ section_path
    else v
  | _ => v

/-- Splitting `x ++ "#/" ++ y` on `'#'` appends a component starting with `'/'`
to the components of `x`, provided `y` itself contains no `'#'`. -/
theorem splitOnChar_hashSlash (x y : String) (hy : '#' ∉ y.data) :
    splitOnChar '#' (x ++ "#/" ++ y).data
      = splitOnChar '#' x.data ++ [('/' :: y.data)] := by
  have hdata : (x ++ "#/" ++ y).data = x.data ++ ('#' :: ('/' :: y.data)) := by
    simp [string_data_append]
  rw [hdata, splitOnChar_append_cons]
  have : splitOnChar '#' ('/' :: y.data) = [('/' :: y.data)] := by
    apply splitOnChar_of_not_mem
    intro hmem
    rcases List.mem_cons.mp hmem with h1 | h1
    · exact absurd h1 (by decide)
    · exact hy h1
  rw [this]

/-- A proxy value of the form `x ++ "#/" ++ y` with no `'#'` in `y` is a fixed
point of `normalize_m_proxy_value` (either it splits into exactly two parts
whose section path already starts with `'/'`, or it has extra `'#'`s in `x`
and falls into the malformed branch). -/
theorem normalize_fixed_hashSlash (x y : String) (hy : '#' ∉ y.data) :
    normalize_m_proxy_value (x ++ "#/" ++ y) = x ++ "#/" ++ y := by
  have hsplit := splitOnChar_hashSlash x y hy
  unfold normalize_m_proxy_value pySplit
  rw [hsplit]
  cases hx : splitOnChar '#' x.data with
  | nil => exact absurd hx (splitOnChar_ne_nil '#' x.data)
  | cons h t =>
    cases t with
    | nil =>
      simp only [List.map_append, List.map_cons, List.map_nil]
      have : pyStartsWith "/" (String.mk ('/' :: y.data)) = true := by
        simp [pyStartsWith, List.isPrefixOf]
      simp [this]
    | cons h2 t2 => simp

/-- `normalize_m_proxy_value` is idempotent. -/
theorem normalize_m_proxy_value_idem (v : String) :
    normalize_m_proxy_value (normalize_m_proxy_value v) = normalize_m_proxy_value v := by
  cases hsp : pySplit '#' v with
  | nil => unfold normalize_m_proxy_value; rw [hsp]; rw [hsp]
  | cons a t =>
    cases t with
    | nil => unfold normalize_m_proxy_value; rw [hsp]; rw [hsp]
    | cons b t2 =>
      cases t2 with
      | cons c t3 => unfold normalize_m_proxy_value; rw [hsp]; rw [hsp]
      | nil =>
        by_cases hb : pyStartsWith "/" b = false
        · have hnv : normalize_m_proxy_value v = a ++ "#/" ++ b := by
            unfold normalize_m_proxy_value; rw [hsp]; simp [hb]
          have hpair := pySplit_eq_pair hsp
          have hbmem : '#' ∉ b.data :=
            splitOnChar_not_mem '#' v.data b.data
              (by rw [hpair]; exact List.mem_cons_of_mem _ (List.mem_cons_self _ _))
          rw [hnv, normalize_fixed_hashSlash a b hbmem]
        · have hnv : normalize_m_proxy_value v = v := by
            unfold normalize_m_proxy_value; rw [hsp]; simp [hb]
          rw [hnv, hnv]

/-- `get_reference` from `utils.py` / the proxy path template used in
`get_inputs_from_search`: `../uploads/{upload_id}/archive/{entry_id}#/data`
(the trailing literal is written `"#/" ++ "data"` to expose the fragment). -/
def get_reference (upload_id entry_id : String) : String :=
  "../uploads/" ++ upload_id ++ "/archive/" ++ entry_id ++ "#/" ++ "data"

/-- The loop body of `get_inputs_from_search`: resolve each entry through the
reference-resolution collaborator (`resolve`); an unresolvable entry is
dropped with a logged warning.  The candidate's `name` is set to the resolved
section's `name`, overwritten by its `lab_id` when that is not `None`. -/
def get_inputs_from_search (resolve : String → Option RSection)
    (entries : List Entry) : List Ref :=
  entries.filterMap fun e =>
    (resolve (get_reference e.upload_id e.entry_id)).map fun sec =>
      { m_proxy_value := get_reference e.upload_id e.entry_id
        name := if sec.lab_id.isSome then sec.lab_id else sec.name
        lab_id := sec.lab_id }

/-- The first loop of `reset_input_references`: each existing input with a
non-`None` reference contributes a candidate dict whose proxy value is
normalized, whose `name` is the input's display name and whose `lab_id` is
read from the resolved referenced section. -/
def buildExistingRefs (resolve : String → Option RSection)
    (inputs : List InputRef) : List Ref :=
  inputs.filterMap fun ir =>
    ir.reference.map fun p =>
      { m_proxy_value := normalize_m_proxy_value p
        name := ir.name
        lab_id := (resolve p).bind RSection.lab_id }

/-- The key/value pair inserted into `ref_hash_map` for a kept candidate. -/
def refKey (r : Ref) : String × Option String :=
  (r.m_proxy_value, r.lab_id)

/-- The two `continue` conditions of the dedup loop in
`reset_input_references`: the candidate's proxy value is already a key of
`ref_hash_map`, or its `lab_id` is not `None` and occurs among the map's
values. -/
def blocked (seen : List (String × Option String)) (r : Ref) : Bool :=
  seen.any (fun p => p.1 == r.m_proxy_value)
    || (r.lab_id.isSome && seen.any (fun p => p.2 == r.lab_id))

/-- The dedup loop of `reset_input_references` (lines 408-417 of
`jupyter/schema.py`): iterate over the candidates, skip a blocked candidate,
otherwise record its key/value pair and append it to the filtered list. -/
def dedupRefs (seen : List (String × Option String)) : List Ref → List Ref
  | [] => []
  | r :: rs =>
    if blocked seen r then dedupRefs seen rs
    else r :: dedupRefs (seen ++ [refKey r]) rs

/-- Rebuilding `self.inputs` from the filtered candidate list:
`SectionReference(reference=ref['m_proxy_value'], name=ref['name'])`. -/
def refsToInputs (refs : List Ref) : List InputRef :=
  refs.map fun r => { reference := some r.m_proxy_value, name := r.name }

/-- The loop body of `set_name_for_inputs`: skip inputs that already have a
display name; skip inputs whose resolved section has no `name` attribute
(this guard fires even when a `lab_id` is present); otherwise prefer the
resolved section's `lab_id` over its `name`.  An unresolvable reference reads
as a section without attributes. -/
def set_name_elem (resolve : String → Option RSection) (ir : InputRef) : InputRef :=
  if ir.name.isSome then ir
  else
    match ir.reference with
    | none => ir
    | some p =>
      match resolve p with
      | none => ir
      | some sec =>
        if sec.name = none then ir
        else if sec.lab_id.isSome then { ir with name := sec.lab_id }
        else if sec.name.isSome then { ir with name := sec.name }
        else ir

/-- `set_name_for_inputs` from `reset_input_references`: the loop mutates each
input independently. -/
def set_name_for_inputs (resolve : String → Option RSection)
    (inputs : List InputRef) : List InputRef :=
  inputs.map (set_name_elem resolve)

/-- `ELNJupyterAnalysis.reset_input_references`.  `entries` is the combined
result list of the class-based search followed by the entries of
`query_for_inputs` (the code extends the former with the latter before the
conversion loop), and `resolve` is the reference-resolution collaborator.
The existing candidates come first, then the search/query candidates; the
concatenated list is deduplicated, `self.inputs` is rebuilt from it, and
display names are filled in. -/
def reset_input_references (resolve : String → Option RSection)
    (entries : List Entry) (inputs : List InputRef) : List InputRef :=
  let ref_list := buildExistingRefs resolve inputs
      ++ get_inputs_from_search resolve entries
  let filtered_ref_list := dedupRefs [] ref_list
  set_name_for_inputs resolve (refsToInputs filtered_ref_list)

theorem blocked_append_left {seen : List (String × Option String)} {r : Ref}
    (ext : List (String × Option String)) (h : blocked seen r = true) :
    blocked (seen ++ ext) r = true := by
  simp only [blocked, List.any_append, Bool.or_eq_true, Bool.and_eq_true] at h ⊢
  tauto

theorem blocked_of_key_mem {seen : List (String × Option String)} {r : Ref}
    {p : String × Option String} (hmem : p ∈ seen) (hkey : p.1 = r.m_proxy_value) :
    blocked seen r = true := by
  simp only [blocked, Bool.or_eq_true, List.any_eq_true]
  exact Or.inl ⟨p, hmem, by simp [hkey]⟩

theorem dedupRefs_subset {seen : List (String × Option String)} {l : List Ref}
    {r : Ref} (h : r ∈ dedupRefs seen l) : r ∈ l := by
  induction l generalizing seen with
  | nil => simp [dedupRefs] at h
  | cons x xs ih =>
    by_cases hb : blocked seen x = true
    · simp only [dedupRefs, if_pos hb] at h
      exact List.mem_cons_of_mem x (ih h)
    · simp only [dedupRefs, if_neg hb] at h
      rcases List.mem_cons.mp h with h1 | h1
      · exact h1 ▸ List.mem_cons_self x xs
      · exact List.mem_cons_of_mem x (ih h1)

theorem dedupRefs_append (seen : List (String × Option String)) (xs ys : List Ref) :
    dedupRefs seen (xs ++ ys)
      = dedupRefs seen xs
        ++ dedupRefs (seen ++ (dedupRefs seen xs).map refKey) ys := by
  induction xs generalizing seen with
  | nil => simp [dedupRefs]
  | cons r rs ih =>
    by_cases hb : blocked seen r = true
    · simp only [List.cons_append, dedupRefs, if_pos hb]
      exact ih seen
    · simp only [List.cons_append, dedupRefs, if_neg hb, List.map_cons,
        List.cons_append, List.append_eq]
      rw [ih (seen ++ [refKey r])]
      simp [List.append_assoc]

theorem dedupRefs_nil_of_blocked {seen : List (String × Option String)}
    {l : List Ref} (h : ∀ r ∈ l, blocked seen r = true) :
    dedupRefs seen l = [] := by
  induction l with
  | nil => rfl
  | cons r rs ih =>
    have hr := h r (List.mem_cons_self r rs)
    simp only [dedupRefs, if_pos hr]
    exact ih fun x hx => h x (List.mem_cons_of_mem r hx)

/-- After the dedup loop has run over `l`, every element of `l` (kept or
dropped) is blocked by the final hash map. -/
theorem dedupRefs_cover {l : List Ref} {s : Ref}
    (seen : List (String × Option String)) (h : s ∈ l) :
    blocked (seen ++ (dedupRefs seen l).map refKey) s = true := by
  induction l generalizing seen with
  | nil => exact absurd h (List.not_mem_nil s)
  | cons r rs ih =>
    by_cases hb : blocked seen r = true
    · simp only [dedupRefs, if_pos hb]
      rcases List.mem_cons.mp h with h1 | h1
      · exact h1 ▸ blocked_append_left _ hb
      · exact ih seen h1
    · simp only [dedupRefs, if_neg hb, List.map_cons]
      rcases List.mem_cons.mp h with h1 | h1
      · subst h1
        exact blocked_of_key_mem
          (List.mem_append_right seen (List.mem_cons_self _ _)) rfl
      · have hgen := ih (seen ++ [refKey r]) h1
        rw [List.append_assoc] at hgen
        simpa using hgen

/-- Running the dedup loop on its own output (with the same initial map)
changes nothing. -/
theorem dedupRefs_idem (seen : List (String × Option String)) (l : List Ref) :
    dedupRefs seen (dedupRefs seen l) = dedupRefs seen l := by
  induction l generalizing seen with
  | nil => rfl
  | cons r rs ih =>
    by_cases hb : blocked seen r = true
    · simp only [dedupRefs, if_pos hb]
      exact ih seen
    · simp only [dedupRefs, if_neg hb]
      rw [ih (seen ++ [refKey r])]

/-- The dedup loop commutes with any candidate transformation that preserves
proxy values and lab ids. -/
theorem dedupRefs_map (G : Ref → Ref)
    (hG : ∀ r, (G r).m_proxy_value = r.m_proxy_value ∧ (G r).lab_id = r.lab_id)
    (seen : List (String × Option String)) (l : List Ref) :
    dedupRefs seen (l.map G) = (dedupRefs seen l).map G := by
  induction l generalizing seen with
  | nil => rfl
  | cons r rs ih =>
    have hblocked : blocked seen (G r) = blocked seen r := by
      simp [blocked, (hG r).1, (hG r).2]
    have hkey : refKey (G r) = refKey r := by
      simp [refKey, (hG r).1, (hG r).2]
    by_cases hb : blocked seen r = true
    · simp only [List.map_cons, dedupRefs, hblocked, if_pos hb]
      exact ih seen
    · simp only [List.map_cons, dedupRefs, hblocked, if_neg hb, hkey]
      rw [ih (seen ++ [refKey r])]

/-- A notebook code cell; only the source text matters to the schema logic.
`nbf.v4.new_code_cell()` with no argument creates a cell with empty source. -/
structure Cell where
  source : String
deriving DecidableEq

/-- The literal marker that identifies system-owned cells. -/
def predefinedMarker : String := "# Pre-defined block"

/-- `cell.source.startswith('# Pre-defined block')`, the test used by
`overwrite_jupyter_notebook`. -/
def isPredefinedCell (c : Cell) : Bool :=
  pyStartsWith predefinedMarker c.source

/-- A cell created by `nbf.v4.new_code_cell()` with default (empty) source. -/
def blankCell : Cell := { source := "" }

/-- `list_to_string` from `utils.py`: concatenates the items, appending a
newline after each. -/
def list_to_string (list_instance : List String) : String :=
  list_instance.foldl (fun s item => s ++ item ++ "\n") ""

/-- Source of the first predefined cell (provenance comment). -/
def provenanceCellSource : String :=
  "# Pre-defined block\n\n# This notebook has been generated by \"Jupyter Notebook Analysis\" schema.\n# It gets the data from the entries referenced in the `inputs` sub-section.\n# It also gets the analysis function based on the analysis type (e.g., XRD)."

/-- Source of the second predefined cell: imports, installation URL, entry id,
and the source code of the functions tagged with category `Generic`. -/
def setupCellSource (installation_url entry_id generic_functions : String) : String :=
  "# Pre-defined block\n\nimport requests\nfrom nomad.client import Auth\n\nbase_url = \"" ++ installation_url
    ++ "\"\ntoken_header = Auth().headers()\nanalysis_entry_id = \"" ++ entry_id
    ++ "\"\n\n" ++ generic_functions
    ++ "input_data = get_input_data(token_header, base_url, analysis_entry_id)\n"

/-- Source of the analysis-type-specific predefined cell (added when the
analysis type differs from `Generic`). -/
def analysisFunctionsCellSource (analysis_type functions_code : String) : String :=
  "# Pre-defined block\n\n# Analysis functions specific to \"" ++ analysis_type
    ++ "\".\n\n" ++ functions_code

/-- Source of the fixed XRD invocation cell. -/
def xrdInvocationCellSource : String :=
  "# Pre-defined block\n\nxrd_voila_analysis(input_data)\n"

/-- `ELNJupyterAnalysis.write_predefined_cells`.  `get_function_source` is the
category-to-source-snippets collaborator (`utils.get_function_source`, which
scans the `nomad_analysis.analysis_source` module at run time); the cell
structure does not depend on what it returns.  `analysis_type` is modelled as
a plain string: the quantity defaults to `'Generic'`, and the code's
`is not None` guard is subsumed by the `≠ 'Generic'` test for every string
value. -/
def write_predefined_cells (get_function_source : String → List String)
    (installation_url entry_id analysis_type : String) : List Cell :=
  let cells : List Cell := [{ source := provenanceCellSource }]
  let generic_functions := list_to_string (get_function_source "Generic")
  let cells := cells
    ++ [{ source := setupCellSource installation_url entry_id generic_functions }]
  let cells :=
    if analysis_type ≠ "Generic" then
      cells ++ [{ source := analysisFunctionsCellSource analysis_type (list_to_string (get_function_source analysis_type)) }]
    else cells
  if analysis_type = "XRD" then
    cells ++ [{ source := xrdInvocationCellSource }]
  else cells

/-- The cell list written by `generate_jupyter_notebook`: the predefined cells
followed by three blank cells. -/
def generate_notebook_cells (get_function_source : String → List String)
    (installation_url entry_id analysis_type : String) : List Cell :=
  write_predefined_cells get_function_source installation_url entry_id analysis_type
    ++ [blankCell, blankCell, blankCell]

/-- The preservation loop of `overwrite_jupyter_notebook`: cells of the
existing notebook whose source starts with the predefined marker are skipped,
the others are appended in order to the freshly computed cells. -/
def append_non_predefined (cells : List Cell) : List Cell → List Cell
  | [] => cells
  | c :: rest =>
    if isPredefinedCell c then append_non_predefined cells rest
    else append_non_predefined (cells ++ [c]) rest

/-- The cell list written back by `overwrite_jupyter_notebook`, given the
freshly computed predefined cells and the cells of the existing notebook. -/
def overwrite_notebook_cells (predefined existing : List Cell) : List Cell :=
  append_non_predefined predefined existing

/-- The raw-file area of the upload: named notebook files and their cells. -/
structure RawStore where
  files : List (String × List Cell)
deriving DecidableEq

/-- `archive.m_context.raw_path_exists(name)`. -/
def raw_path_exists (store : RawStore) (name : String) : Bool :=
  store.files.any (fun f => f.1 == name)

/-- `archive.m_context.raw_file(name, 'w')`: overwrite the named file when it
exists, create it otherwise. -/
def writeRawFile (store : RawStore) (name : String) (content : List Cell) : RawStore :=
  if raw_path_exists store name then
    { files := store.files.map fun f => if f.1 == name then (name, content) else f }
  else
    { files := store.files ++ [(name, content)] }

/-- `archive.m_context.raw_file(name, 'r')` followed by `nbf.read`. -/
def readRawFile (store : RawStore) (name : String) : Option (List Cell) :=
  (store.files.find? (fun f => f.1 == name)).map Prod.snd

/-- `os.rename(raw_path/old, raw_path/new)`: the backing file keeps its
content under the new name. -/
def renameRawFile (store : RawStore) (old new : String) : RawStore :=
  { files := store.files.map fun f => if f.1 == old then (new, f.2) else f }

/-- The canonical notebook file name computed by
`ELNJupyterAnalysis.set_jupyter_notebook_name`.  Python's `if self.name:`
takes the `untitled.ipynb` branch for both an unset and an empty name. -/
def jupyter_file_name (name : Option String) (analysis_type : String) : String :=
  match name with
  | some n =>
    if n = "" then "untitled.ipynb"
    else pyReplaceSpaceByUnderscore n ++ "_" ++ pyLower analysis_type ++ "_notebook.ipynb"
  | none => "untitled.ipynb"

/-- The mutable quantities of an `ELNJupyterAnalysis` section that the
normalization pass reads and writes. -/
structure ELNState where
  name : Option String
  analysis_type : String
  reset_notebook : Bool
  notebook : Option String
  inputs : List InputRef
deriving DecidableEq

/-- `ELNJupyterAnalysis.set_jupyter_notebook_name`: assign the canonical name
when no notebook is recorded; rename the backing raw file and update the
record when the recorded name differs from the canonical one. -/
def set_jupyter_notebook_name (s : ELNState) (store : RawStore) :
    ELNState × RawStore :=
  let file_name := jupyter_file_name s.name s.analysis_type
  match s.notebook with
  | none => ({ s with notebook := some file_name }, store)
  | some nb =>
    if nb ≠ file_name then
      ({ s with notebook := some file_name }, renameRawFile store nb file_name)
    else (s, store)

/-- `ELNJupyterAnalysis.overwrite_jupyter_notebook`: read the existing
notebook, keep only its cells that do not start with the predefined marker,
and write them back after the freshly computed predefined cells.  (In the
calling context the file exists; a missing file would surface as a
storage-layer error.) -/
def overwrite_jupyter_notebook (get_function_source : String → List String)
    (installation_url entry_id : String) (s : ELNState) (store : RawStore) :
    RawStore :=
  let nbName := s.notebook.getD ""
  match readRawFile store nbName with
  | none => store
  | some existing =>
    writeRawFile store nbName
      (overwrite_notebook_cells
        (write_predefined_cells get_function_source installation_url entry_id
          s.analysis_type)
        existing)

/-- `ELNJupyterAnalysis.write_jupyter_notebook`: fresh generation when no
notebook is recorded (`not self.notebook` is also true for an empty name) or
the recorded file is absent; patch regeneration otherwise. -/
def write_jupyter_notebook (get_function_source : String → List String)
    (installation_url entry_id : String) (s : ELNState) (store : RawStore) :
    RawStore :=
  let nbName := s.notebook.getD ""
  if nbName = "" || !(raw_path_exists store nbName) then
    writeRawFile store nbName
      (generate_notebook_cells get_function_source installation_url entry_id
        s.analysis_type)
  else
    overwrite_jupyter_notebook get_function_source installation_url entry_id s store

/-- `ELNJupyterAnalysis.normalize`: `write_results` currently only reads a
temporary file and changes nothing; then the notebook name is resolved, the
input references are reconciled, and — when a reset is requested — the
notebook file is written and the reset flag cleared. -/
def eln_normalize (get_function_source : String → List String)
    (installation_url entry_id : String) (resolve : String → Option RSection)
    (entries : List Entry) (s : ELNState) (store : RawStore) :
    ELNState × RawStore :=
  let step1 := set_jupyter_notebook_name s store
  let s2 := { step1.1 with
    inputs := reset_input_references resolve entries step1.1.inputs }
  if s2.reset_notebook then
    ({ s2 with reset_notebook := false },
      write_jupyter_notebook get_function_source installation_url entry_id s2 step1.2)
  else (s2, step1.2)

/-- `ELNXRDJupyterAnalysis.normalize`: overwrite `analysis_type` with `'XRD'`,
then run the base normalization. -/
def xrd_normalize (get_function_source : String → List String)
    (installation_url entry_id : String) (resolve : String → Option RSection)
    (entries : List Entry) (s : ELNState) (store : RawStore) :
    ELNState × RawStore :=
  eln_normalize get_function_source installation_url entry_id resolve entries
    { s with analysis_type := "XRD" } store

/-- An HTTP response as seen by `put_nomad_request`: status code and parsed
JSON body (kept opaque as a string). -/
structure HttpResponse where
  status : Nat
  body : String
deriving DecidableEq

/-- `requests.Response.ok`: true exactly when the status code is below 400
(neither a client nor a server error). -/
def response_ok (r : HttpResponse) : Bool :=
  r.status < 400

/-- `put_nomad_request` from `utils.py`: a single authenticated PUT is issued;
on a non-success status a `ValueError` carrying the response body is raised
(modelled as `Except.error`), otherwise the parsed JSON body is returned.
No retry is performed: the function is a function of one response. -/
def put_nomad_request (r : HttpResponse) : Except String String :=
  if !(response_ok r) then Except.error ("Unexpected response " ++ r.body)
  else Except.ok r.body

/-- The inner `template` helper of `create_unique_filename`:
`'{prefix}_{i}.{suffix}'`. -/
def unique_template (filePrefix fileSuffix : String) (i : Nat) : String :=
  filePrefix ++ "_" ++ toString i ++ "." ++ fileSuffix

/-- The `while True` loop of `create_unique_filename`, made total with an
explicit fuel argument (fuel exhaustion models divergence); `ex` is the
`raw_path_exists` collaborator. -/
def create_unique_filename_loop (ex : String → Bool)
    (filePrefix fileSuffix : String) : Nat → Nat → Option String
  | _, 0 => none
  | i, fuel + 1 =>
    if ex (unique_template filePrefix fileSuffix (i + 1)) = false then
      some (unique_template filePrefix fileSuffix (i + 1))
    else create_unique_filename_loop ex filePrefix fileSuffix (i + 1) fuel

/-- `create_unique_filename` from `utils.py`: try `i = 0`, then increment
until a name is free. -/
def create_unique_filename (ex : String → Bool)
    (filePrefix fileSuffix : String) (fuel : Nat) : Option String :=
  if ex (unique_template filePrefix fileSuffix 0) = false then
    some (unique_template filePrefix fileSuffix 0)
  else create_unique_filename_loop ex filePrefix fileSuffix 0 fuel

theorem set_name_elem_reference (resolve : String → Option RSection) (ir : InputRef) :
    (set_name_elem resolve ir).reference = ir.reference := by
  rcases ir with ⟨ref, nm⟩
  cases nm with
  | some n => simp [set_name_elem]
  | none =>
    cases ref with
    | none => simp [set_name_elem]
    | some p =>
      cases hr : resolve p with
      | none => simp [set_name_elem, hr]
      | some sec =>
        by_cases h1 : sec.name = none
        · simp [set_name_elem, hr, h1]
        · by_cases h2 : sec.lab_id.isSome <;>
            by_cases h3 : sec.name.isSome <;>
            simp [set_name_elem, hr, h1, h2, h3]

/-- Filling display names is idempotent on a single input. -/
theorem set_name_elem_idem (resolve : String → Option RSection) (ir : InputRef) :
    set_name_elem resolve (set_name_elem resolve ir) = set_name_elem resolve ir := by
  rcases ir with ⟨ref, nm⟩
  cases nm with
  | some n => simp [set_name_elem]
  | none =>
    cases ref with
    | none => simp [set_name_elem]
    | some p =>
      cases hr : resolve p with
      | none => simp [set_name_elem, hr]
      | some sec =>
        rcases sec with ⟨sname, slab⟩
        cases sname with
        | none => simp [set_name_elem, hr]
        | some sn =>
          cases slab with
          | none => simp [set_name_elem, hr]
          | some sl => simp [set_name_elem, hr]

/-- Every candidate produced by the two collection loops has a proxy value
that is a fixed point of normalization, and a `lab_id` that re-resolution of
its proxy value reproduces (assuming resolution is invariant under
normalization of the proxy value). -/
theorem candidate_wellformed (resolve : String → Option RSection)
    (entries : List Entry) (inputs : List InputRef)
    (hres : ∀ v, resolve (normalize_m_proxy_value v) = resolve v) :
    ∀ r ∈ buildExistingRefs resolve inputs ++ get_inputs_from_search resolve entries,
      normalize_m_proxy_value r.m_proxy_value = r.m_proxy_value
        ∧ (resolve r.m_proxy_value).bind RSection.lab_id = r.lab_id := by
  intro r hr
  rcases List.mem_append.mp hr with hmem | hmem
  · obtain ⟨ir, _, heq⟩ := List.mem_filterMap.mp hmem
    cases href : ir.reference with
    | none => rw [href] at heq; simp at heq
    | some p =>
      rw [href] at heq
      simp only [Option.map_some', Option.some.injEq] at heq
      subst heq
      refine ⟨normalize_m_proxy_value_idem p, ?_⟩
      simp [hres p]
  · obtain ⟨e, _, heq⟩ := List.mem_filterMap.mp hmem
    cases hre : resolve (get_reference e.upload_id e.entry_id) with
    | none => rw [hre] at heq; simp at heq
    | some sec =>
      rw [hre] at heq
      simp only [Option.map_some', Option.some.injEq] at heq
      subst heq
      constructor
      · exact normalize_fixed_hashSlash _ "data" (by decide)
      · simp [hre]

/-- The candidate a kept reference contributes on the next pass: same proxy
value and lab id, display name filled by `set_name_for_inputs`. -/
def filledRef (resolve : String → Option RSection) (r : Ref) : Ref :=
  { m_proxy_value := r.m_proxy_value
    name := (set_name_elem resolve { reference := some r.m_proxy_value, name := r.name }).name
    lab_id := r.lab_id }

/-- Rebuilding the existing-candidate list from a name-filled input list
reproduces each candidate, with only the `name` field updated. -/
theorem buildExistingRefs_of_filled (resolve : String → Option RSection)
    (l : List Ref)
    (hl : ∀ r ∈ l, normalize_m_proxy_value r.m_proxy_value = r.m_proxy_value
      ∧ (resolve r.m_proxy_value).bind RSection.lab_id = r.lab_id) :
    buildExistingRefs resolve
        (l.map fun r => set_name_elem resolve { reference := some r.m_proxy_value, name := r.name })
      = l.map (filledRef resolve) := by
  induction l with
  | nil => rfl
  | cons r rs ih =>
    have hr := hl r (List.mem_cons_self r rs)
    have hrs : ∀ x ∈ rs, normalize_m_proxy_value x.m_proxy_value = x.m_proxy_value
        ∧ (resolve x.m_proxy_value).bind RSection.lab_id = x.lab_id :=
      fun x hx => hl x (List.mem_cons_of_mem r hx)
    have href := set_name_elem_reference resolve
      { reference := some r.m_proxy_value, name := r.name }
    simp only [List.map_cons, buildExistingRefs, List.filterMap_cons] at *
    rw [href]
    simp only [Option.map_some', hr.1, hr.2]
    rw [ih hrs]
    rfl

/-- One reconciliation pass maps the deduplicated candidate list through the
input rebuild and the name-filling step. -/
theorem reset_input_references_eq_map (resolve : String → Option RSection)
    (entries : List Entry) (inputs : List InputRef) :
    reset_input_references resolve entries inputs
      = (dedupRefs [] (buildExistingRefs resolve inputs
            ++ get_inputs_from_search resolve entries)).map
          (fun r => set_name_elem resolve { reference := some r.m_proxy_value, name := r.name }) := by
  unfold reset_input_references set_name_for_inputs refsToInputs
  rw [List.map_map]
  rfl

/-- A reconciliation pass leaves a state fixed when it starts from the
name-filled image of a candidate list `F` that is itself dedup-stable, has
normalization-stable proxy values reproducing their lab ids, and blocks every
search candidate. -/
theorem reset_input_references_of_filled (resolve : String → Option RSection)
    (entries : List Entry) (F : List Ref)
    (hwfF : ∀ r ∈ F, normalize_m_proxy_value r.m_proxy_value = r.m_proxy_value
      ∧ (resolve r.m_proxy_value).bind RSection.lab_id = r.lab_id)
    (hFdedup : dedupRefs [] F = F)
    (hblockS : dedupRefs (F.map refKey) (get_inputs_from_search resolve entries) = []) :
    reset_input_references resolve entries
        (F.map fun r => set_name_elem resolve { reference := some r.m_proxy_value, name := r.name })
      = F.map fun r => set_name_elem resolve { reference := some r.m_proxy_value, name := r.name } := by
  rw [reset_input_references_eq_map]
  rw [buildExistingRefs_of_filled resolve F hwfF]
  rw [dedupRefs_append]
  have hGpres : ∀ r : Ref,
      (filledRef resolve r).m_proxy_value = r.m_proxy_value
      ∧ (filledRef resolve r).lab_id = r.lab_id :=
    fun r => ⟨rfl, rfl⟩
  rw [dedupRefs_map _ hGpres [] F, hFdedup]
  rw [List.map_map]
  have hkeys : refKey ∘ filledRef resolve = refKey := funext fun r => rfl
  rw [hkeys]
  simp only [List.nil_append]
  rw [hblockS, List.append_nil]
  rw [List.map_map]
  congr 1
  funext r
  show set_name_elem resolve
      { reference := some r.m_proxy_value
        name := (set_name_elem resolve { reference := some r.m_proxy_value, name := r.name }).name }
    = set_name_elem resolve { reference := some r.m_proxy_value, name := r.name }
  have href := set_name_elem_reference resolve
    { reference := some r.m_proxy_value, name := r.name }
  have hidem := set_name_elem_idem resolve
    { reference := some r.m_proxy_value, name := r.name }
  cases hx : set_name_elem resolve { reference := some r.m_proxy_value, name := r.name } with
  | mk ref nm =>
    rw [hx] at href hidem
    have href2 : ref = some r.m_proxy_value := href
    subst href2
    exact hidem

/-- A reference kept by the dedup loop was not blocked by the initial map. -/
theorem dedupRefs_out_not_blocked {seen : List (String × Option String)}
    {l : List Ref} {r : Ref} (h : r ∈ dedupRefs seen l) :
    blocked seen r = false := by
  induction l generalizing seen with
  | nil => simp [dedupRefs] at h
  | cons x xs ih =>
    by_cases hb : blocked seen x = true
    · simp only [dedupRefs, if_pos hb] at h
      exact ih h
    · simp only [dedupRefs, if_neg hb] at h
      rcases List.mem_cons.mp h with h1 | h1
      · subst h1
        exact Bool.not_eq_true _ ▸ eq_false_of_ne_true hb
      · by_cases hr : blocked seen r = true
        · have := blocked_append_left [refKey x] hr
          rw [ih h1] at this
          exact absurd this (by simp)
        · exact eq_false_of_ne_true hr

/-- Any two distinct kept references have distinct proxy values, and a later
kept reference with a non-null lab id differs in lab id from every earlier
kept reference. -/
theorem dedupRefs_pairwise (seen : List (String × Option String)) (l : List Ref) :
    (dedupRefs seen l).Pairwise
      (fun a b => a.m_proxy_value ≠ b.m_proxy_value
        ∧ (b.lab_id = none ∨ a.lab_id ≠ b.lab_id)) := by
  induction l generalizing seen with
  | nil => simp [dedupRefs]
  | cons r rs ih =>
    by_cases hb : blocked seen r = true
    · simp only [dedupRefs, if_pos hb]
      exact ih seen
    · simp only [dedupRefs, if_neg hb]
      refine List.Pairwise.cons ?_ (ih (seen ++ [refKey r]))
      intro b hbmem
      have hnb := dedupRefs_out_not_blocked hbmem
      constructor
      · intro hpe
        have hbt : blocked (seen ++ [refKey r]) b = true :=
          blocked_of_key_mem
            (List.mem_append_right _ (List.mem_cons_self _ _)) hpe
        rw [hbt] at hnb
        exact absurd hnb (by simp)
      · cases hbl : b.lab_id with
        | none => exact Or.inl rfl
        | some lv =>
          refine Or.inr ?_
          intro hle
          have hbt : blocked (seen ++ [refKey r]) b = true := by
            simp only [blocked, Bool.or_eq_true, Bool.and_eq_true, List.any_eq_true]
            refine Or.inr ⟨by simp [hbl], ⟨refKey r, ?_, ?_⟩⟩
            · exact List.mem_append_right _ (List.mem_cons_self _ _)
            · simp only [refKey, beq_iff_eq]
              rw [hle, hbl]
          rw [hbt] at hnb
          exact absurd hnb (by simp)

/-- A prefix of `s` is also a prefix of `s ++ t`. -/
theorem pyStartsWith_append (p s t : String) (h : pyStartsWith p s = true) :
    pyStartsWith p (s ++ t) = true := by
  simp only [pyStartsWith, string_data_append, List.isPrefixOf_iff_prefix] at h ⊢
  exact h.trans (List.prefix_append s.data t.data)

theorem setupCell_predefined (installation_url entry_id generic_functions : String) :
    isPredefinedCell { source := setupCellSource installation_url entry_id generic_functions } = true := by
  unfold isPredefinedCell setupCellSource
  apply pyStartsWith_append
  apply pyStartsWith_append
  apply pyStartsWith_append
  apply pyStartsWith_append
  apply pyStartsWith_append
  apply pyStartsWith_append
  decide

theorem analysisFunctionsCell_predefined (analysis_type functions_code : String) :
    isPredefinedCell { source := analysisFunctionsCellSource analysis_type functions_code } = true := by
  unfold isPredefinedCell analysisFunctionsCellSource
  apply pyStartsWith_append
  apply pyStartsWith_append
  apply pyStartsWith_append
  decide

/-- The preservation loop appends exactly the non-marker cells, in order. -/
theorem append_non_predefined_eq_filter (l : List Cell) :
    ∀ cells, append_non_predefined cells l
      = cells ++ l.filter (fun c => !(isPredefinedCell c)) := by
  induction l with
  | nil => intro cells; simp [append_non_predefined]
  | cons c rest ih =>
    intro cells
    by_cases h : isPredefinedCell c = true
    · simp [append_non_predefined, h, ih, List.filter_cons]
    · simp only [append_non_predefined, if_neg h, ih, List.filter_cons]
      simp [h]

/-- The `while True` search of `create_unique_filename` reaches the least free
index when given enough fuel. -/
theorem create_unique_filename_loop_finds (ex : String → Bool)
    (filePrefix fileSuffix : String) (i0 : Nat)
    (hfree : ex (unique_template filePrefix fileSuffix i0) = false)
    (hmin : ∀ j, j < i0 → ex (unique_template filePrefix fileSuffix j) = true) :
    ∀ fuel i, i < i0 → i0 ≤ i + fuel →
      create_unique_filename_loop ex filePrefix fileSuffix i fuel
        = some (unique_template filePrefix fileSuffix i0) := by
  intro fuel
  induction fuel with
  | zero => intro i h1 h2; omega
  | succ fuel ih =>
    intro i h1 h2
    by_cases hi : i + 1 = i0
    · simp [create_unique_filename_loop, hi, hfree]
    · have hlt : i + 1 < i0 := by omega
      have htrue := hmin (i + 1) hlt
      simp only [create_unique_filename_loop, htrue]
      simp only [Bool.true_eq_false, if_false]
      exact ih (i + 1) hlt (by omega)

/-- Resolution collaborator for the C1 counterexample run. -/
def resolveC1 : String → Option RSection := fun p =>
  if p = "w#/a" then some { name := none, lab_id := some "L" }
  else if p = "x#data" then some { name := none, lab_id := some "L" }
  else if p = "x#/data" then some { name := none, lab_id := none }
  else none

/-- Existing inputs for the C1 counterexample run. -/
def inputsC1 : List InputRef :=
  [ { reference := some "w#/a", name := some "N1" },
    { reference := some "x#data", name := some "N2" },
    { reference := some "x#/data", name := some "N3" } ]

/-- The concatenated candidate list of the C1 counterexample run. -/
def candidatesC1 : List Ref :=
  buildExistingRefs resolveC1 inputsC1 ++ get_inputs_from_search resolveC1 []

/-- C1, counterexample.  The candidate list contains two candidates with the
identical proxy value `"x#/data"`; the first-encountered one (display name
`"N2"`, blocked because its lab id `"L"` was already kept) does NOT survive,
while the later one (display name `"N3"`) does — so reconciliation does not
keep "for each distinct proxy value, only the first-encountered reference".
Moreover, with three candidates whose lab ids coincide, the two candidates
sharing proxy value `"p2"` yield zero (not exactly one) entries. -/
theorem C1_dedup_counterexample :
    candidatesC1
      = [ { m_proxy_value := "w#/a", name := some "N1", lab_id := some "L" },
          { m_proxy_value := "x#/data", name := some "N2", lab_id := some "L" },
          { m_proxy_value := "x#/data", name := some "N3", lab_id := none } ]
    ∧ reset_input_references resolveC1 [] inputsC1
        = [ { reference := some "w#/a", name := some "N1" },
            { reference := some "x#/data", name := some "N3" } ]
    ∧ dedupRefs []
        [ { m_proxy_value := "p1", name := none, lab_id := some "L" },
          { m_proxy_value := "p2", name := none, lab_id := some "L" },
          { m_proxy_value := "p2", name := none, lab_id := some "L" } ]
        = [ { m_proxy_value := "p1", name := none, lab_id := some "L" } ] := by
  decide

/-- C1, amended.  Reference reconciliation deduplicates the concatenated
candidate list (existing, class-search, query-result, in that order): a
candidate is kept iff its proxy value differs from every already-kept proxy
value and its non-null lab id differs from every already-kept lab id.
Consequently the kept proxy values are pairwise distinct (each distinct proxy
value yields at most one entry), a later kept reference with a non-null lab
id never repeats an earlier kept lab id, and when exactly two candidates with
identical proxy value are deduplicated the result is exactly the first one. -/
theorem C1_dedup_amended (refs : List Ref) :
    ((dedupRefs [] refs).map Ref.m_proxy_value).Nodup
    ∧ (dedupRefs [] refs).Pairwise
        (fun a b => b.lab_id = none ∨ a.lab_id ≠ b.lab_id)
    ∧ (∀ r r2 : Ref, r.m_proxy_value = r2.m_proxy_value →
        dedupRefs [] [r, r2] = [r]) := by
  have hp := dedupRefs_pairwise [] refs
  refine ⟨?_, ?_, ?_⟩
  · exact List.pairwise_map.mpr (hp.imp fun h => h.1)
  · exact hp.imp fun h => h.2
  · intro r r2 h
    have hb1 : blocked [] r = false := by simp [blocked]
    have hb2 : blocked [refKey r] r2 = true :=
      blocked_of_key_mem (List.mem_cons_self _ _) h
    simp [dedupRefs, hb1, hb2]

/-- Witness for the amended C1 theorem at concrete inputs. -/
theorem C1_dedup_amended_witness :
    ((dedupRefs [] candidatesC1).map Ref.m_proxy_value).Nodup
    ∧ dedupRefs []
        [ { m_proxy_value := "p", name := none, lab_id := none },
          { m_proxy_value := "p", name := some "x", lab_id := some "l" } ]
        = [ { m_proxy_value := "p", name := none, lab_id := none } ] :=
  ⟨(C1_dedup_amended candidatesC1).1, (C1_dedup_amended []).2.2 _ _ rfl⟩

/-- Resolution collaborator for the C2 failing input: the referenced section
has a lab id but no name. -/
def resolveC2 : String → Option RSection := fun p =>
  if p = "ref-1" then some { name := none, lab_id := some "L1" } else none

/-- C2, code-bug evaluation.  The claim (and the docstring of
`set_name_for_inputs`) says a reference lacking a display name gets the
resolved section's lab id when that is present.  At this input the resolved
section has `lab_id = "L1"` and `name = None`; the early
`if input_ref.reference.name is None: continue` guard fires and the display
name is left unset instead of being set to `"L1"`. -/
theorem C2_set_name_bug_eval :
    resolveC2 "ref-1" = some { name := none, lab_id := some "L1" }
    ∧ set_name_for_inputs resolveC2 [{ reference := some "ref-1", name := none }]
        = [{ reference := some "ref-1", name := none }] := by
  decide

/-- C3, counterexample.  For analysis type `"XRD"` the freshly generated
notebook has 4 predefined cells (provenance comment, setup cell, XRD
functions cell, XRD invocation cell) plus 3 blank cells — 7 cells in all —
not the claimed 3 predefined plus 3 blank (6 cells). -/
theorem C3_xrd_cell_count_counterexample :
    (write_predefined_cells (fun _ => []) "u" "e" "XRD").length = 4
    ∧ (generate_notebook_cells (fun _ => []) "u" "e" "XRD").length = 7
    ∧ ¬ (generate_notebook_cells (fun _ => []) "u" "e" "XRD").length = 3 + 3 := by
  decide

/-- C3, amended.  Fresh notebook generation produces the predefined cells
followed by exactly three blank cells; for analysis type `"Generic"` there
are exactly 2 predefined cells, for `"XRD"` exactly 4 (the XRD functions cell
and the fixed XRD invocation cell in addition); every predefined cell starts
with the predefined-block marker and a blank cell does not. -/
theorem C3_notebook_generation_amended (get_function_source : String → List String)
    (installation_url entry_id : String) :
    (write_predefined_cells get_function_source installation_url entry_id "Generic").length = 2
    ∧ (write_predefined_cells get_function_source installation_url entry_id "XRD").length = 4
    ∧ generate_notebook_cells get_function_source installation_url entry_id "Generic"
        = write_predefined_cells get_function_source installation_url entry_id "Generic"
            ++ [blankCell, blankCell, blankCell]
    ∧ generate_notebook_cells get_function_source installation_url entry_id "XRD"
        = write_predefined_cells get_function_source installation_url entry_id "XRD"
            ++ [blankCell, blankCell, blankCell]
    ∧ (write_predefined_cells get_function_source installation_url entry_id "Generic").all isPredefinedCell = true
    ∧ (write_predefined_cells get_function_source installation_url entry_id "XRD").all isPredefinedCell = true
    ∧ isPredefinedCell blankCell = false := by
  have hgen : write_predefined_cells get_function_source installation_url entry_id "Generic"
      = [ { source := provenanceCellSource },
          { source := setupCellSource installation_url entry_id (list_to_string (get_function_source "Generic")) } ] := rfl
  have hxrd : write_predefined_cells get_function_source installation_url entry_id "XRD"
      = [ { source := provenanceCellSource },
          { source := setupCellSource installation_url entry_id (list_to_string (get_function_source "Generic")) },
          { source := analysisFunctionsCellSource "XRD" (list_to_string (get_function_source "XRD")) },
          { source := xrdInvocationCellSource } ] := rfl
  refine ⟨by rw [hgen]; rfl, by rw [hxrd]; rfl, rfl, rfl, ?_, ?_, by decide⟩
  · rw [hgen]
    simp only [List.all_cons, List.all_nil, Bool.and_eq_true]
    exact ⟨by decide, setupCell_predefined _ _ _, trivial⟩
  · rw [hxrd]
    simp only [List.all_cons, List.all_nil, Bool.and_eq_true]
    exact ⟨by decide, setupCell_predefined _ _ _,
      analysisFunctionsCell_predefined _ _, by decide, trivial⟩

/-- C4.  Patch regeneration keeps exactly the existing cells whose source does
not start with the predefined-block marker, unmodified and in their original
relative order, after the freshly computed predefined cells; at the store
level the recorded notebook is rewritten with precisely that cell list. -/
theorem C4_patch_preserves_user_cells (predefined existing : List Cell)
    (get_function_source : String → List String) (installation_url entry_id : String)
    (s : ELNState) (store : RawStore)
    (hread : readRawFile store (s.notebook.getD "") = some existing) :
    overwrite_notebook_cells predefined existing
      = predefined ++ existing.filter (fun c => !(isPredefinedCell c))
    ∧ overwrite_jupyter_notebook get_function_source installation_url entry_id s store
        = writeRawFile store (s.notebook.getD "")
            (write_predefined_cells get_function_source installation_url entry_id s.analysis_type
              ++ existing.filter (fun c => !(isPredefinedCell c))) := by
  constructor
  · exact append_non_predefined_eq_filter existing predefined
  · unfold overwrite_jupyter_notebook
    simp only [hread]
    unfold overwrite_notebook_cells
    rw [append_non_predefined_eq_filter]

/-- State and store for the C4 witness. -/
def stateC4 : ELNState :=
  { name := some "nb", analysis_type := "Generic", reset_notebook := true,
    notebook := some "nb.ipynb", inputs := [] }

def storeC4 : RawStore :=
  { files := [("nb.ipynb",
      [ { source := "# Pre-defined block old" }, { source := "user cell" } ])] }

/-- Witness for C4 at a concrete notebook. -/
theorem C4_patch_preserves_user_cells_witness :
    overwrite_notebook_cells [blankCell]
        [ { source := "# Pre-defined block old" }, { source := "user cell" } ]
      = [blankCell] ++ (List.filter (fun c => !(isPredefinedCell c))
          [ { source := "# Pre-defined block old" }, { source := "user cell" } ])
    ∧ overwrite_jupyter_notebook (fun _ => []) "u" "e" stateC4 storeC4
        = writeRawFile storeC4 (stateC4.notebook.getD "")
            (write_predefined_cells (fun _ => []) "u" "e" stateC4.analysis_type
              ++ (List.filter (fun c => !(isPredefinedCell c))
                [ { source := "# Pre-defined block old" }, { source := "user cell" } ])) :=
  C4_patch_preserves_user_cells [blankCell] _ (fun _ => []) "u" "e" stateC4 storeC4
    (by decide)

/-- C5.  Reference reconciliation is idempotent: with unchanged search/query
results and an unchanged resolution collaborator (in particular, resolution
does not distinguish a proxy value from its normalized form — which is the
point of normalization), running `reset_input_references` on its own output
reproduces that output exactly, in the same order. -/
theorem C5_reconciliation_idempotent (resolve : String → Option RSection)
    (entries : List Entry) (inputs : List InputRef)
    (hres : ∀ v, resolve (normalize_m_proxy_value v) = resolve v) :
    reset_input_references resolve entries
        (reset_input_references resolve entries inputs)
      = reset_input_references resolve entries inputs := by
  have hwfF : ∀ r ∈ dedupRefs []
      (buildExistingRefs resolve inputs ++ get_inputs_from_search resolve entries),
      normalize_m_proxy_value r.m_proxy_value = r.m_proxy_value
        ∧ (resolve r.m_proxy_value).bind RSection.lab_id = r.lab_id :=
    fun r hr => candidate_wellformed resolve entries inputs hres r (dedupRefs_subset hr)
  have hFdedup := dedupRefs_idem []
    (buildExistingRefs resolve inputs ++ get_inputs_from_search resolve entries)
  have hblockS : dedupRefs
      ((dedupRefs [] (buildExistingRefs resolve inputs
        ++ get_inputs_from_search resolve entries)).map refKey)
      (get_inputs_from_search resolve entries) = [] := by
    apply dedupRefs_nil_of_blocked
    intro x hx
    have hcov := dedupRefs_cover
      (l := buildExistingRefs resolve inputs ++ get_inputs_from_search resolve entries)
      [] (List.mem_append_right _ hx)
    simpa using hcov
  rw [reset_input_references_eq_map resolve entries inputs]
  exact reset_input_references_of_filled resolve entries _ hwfF hFdedup hblockS

/-- Witness for C5 at a concrete resolver and input list. -/
theorem C5_reconciliation_idempotent_witness :
    reset_input_references (fun _ => some { name := some "nm", lab_id := some "lab" }) []
        (reset_input_references (fun _ => some { name := some "nm", lab_id := some "lab" }) []
          [{ reference := some "a#b", name := none }])
      = reset_input_references (fun _ => some { name := some "nm", lab_id := some "lab" }) []
          [{ reference := some "a#b", name := none }] :=
  C5_reconciliation_idempotent _ [] _ (fun _ => rfl)

/-- `set_jupyter_notebook_name` always leaves the canonical file name in the
record. -/
theorem set_jupyter_notebook_name_fst (s : ELNState) (store : RawStore) :
    (set_jupyter_notebook_name s store).1
      = { s with notebook := some (jupyter_file_name s.name s.analysis_type) } := by
  rcases s with ⟨nm, aty, rn, nb, inp⟩
  cases nb with
  | none => rfl
  | some nbv =>
    by_cases h : nbv = jupyter_file_name nm aty
    · simp [set_jupyter_notebook_name, h]
    · simp [set_jupyter_notebook_name, h]

/-- C6.  On every normalization pass the canonical notebook file name is
`{name_with_spaces_as_underscores}_{analysis_type_lowercased}_notebook.ipynb`
(`untitled.ipynb` when the name is unset); when no notebook file is recorded
the record is assigned this name without touching the store, when the
recorded name differs the backing raw file is renamed (its content preserved
under the new name) and the record updated, and when it already matches
nothing happens. -/
theorem C6_canonical_notebook_name (s : ELNState) (store : RawStore) :
    jupyter_file_name (some "Sample1") "Generic" = "Sample1_generic_notebook.ipynb"
    ∧ (s.name = none → jupyter_file_name s.name s.analysis_type = "untitled.ipynb")
    ∧ (∀ n, s.name = some n → n ≠ "" →
        jupyter_file_name s.name s.analysis_type
          = pyReplaceSpaceByUnderscore n ++ "_" ++ pyLower s.analysis_type ++ "_notebook.ipynb")
    ∧ (s.notebook = none →
        set_jupyter_notebook_name s store
          = ({ s with notebook := some (jupyter_file_name s.name s.analysis_type) }, store))
    ∧ (∀ nb, s.notebook = some nb → nb ≠ jupyter_file_name s.name s.analysis_type →
        set_jupyter_notebook_name s store
          = ({ s with notebook := some (jupyter_file_name s.name s.analysis_type) },
              renameRawFile store nb (jupyter_file_name s.name s.analysis_type)))
    ∧ (∀ nb, s.notebook = some nb → nb = jupyter_file_name s.name s.analysis_type →
        set_jupyter_notebook_name s store = (s, store))
    ∧ (∀ nb content, s.notebook = some nb → (nb, content) ∈ store.files →
        (jupyter_file_name s.name s.analysis_type, content)
          ∈ (set_jupyter_notebook_name s store).2.files) := by
  refine ⟨by decide, ?_, ?_, ?_, ?_, ?_, ?_⟩
  · intro h
    simp [jupyter_file_name, h]
  · intro n hn hne
    simp [jupyter_file_name, hn, hne]
  · intro h
    simp [set_jupyter_notebook_name, h]
  · intro nb hnb hne
    simp [set_jupyter_notebook_name, hnb, hne]
  · intro nb hnb heq
    simp [set_jupyter_notebook_name, hnb, heq]
  · intro nb content hnb hmem
    by_cases heq : nb = jupyter_file_name s.name s.analysis_type
    · simp only [set_jupyter_notebook_name, hnb, heq, ne_eq, not_true_eq_false, if_false]
      exact heq ▸ hmem
    · simp only [set_jupyter_notebook_name, hnb, heq, ne_eq, not_false_eq_true, if_true,
        renameRawFile]
      refine List.mem_map.mpr ⟨(nb, content), hmem, ?_⟩
      simp

/-- State and store for the C6 witness. -/
def stateC6 : ELNState :=
  { name := some "Sample 1", analysis_type := "Generic", reset_notebook := true,
    notebook := some "old.ipynb", inputs := [] }

def storeC6 : RawStore := { files := [("old.ipynb", [blankCell])] }

/-- Witness for C6: a differing recorded name is renamed to the canonical
pattern. -/
theorem C6_canonical_notebook_name_witness :
    set_jupyter_notebook_name stateC6 storeC6
      = ({ stateC6 with notebook := some (jupyter_file_name stateC6.name stateC6.analysis_type) },
          renameRawFile storeC6 "old.ipynb" (jupyter_file_name stateC6.name stateC6.analysis_type))
    ∧ jupyter_file_name stateC6.name stateC6.analysis_type = "Sample_1_generic_notebook.ipynb" :=
  ⟨(C6_canonical_notebook_name stateC6 storeC6).2.2.2.2.1 "old.ipynb" rfl (by decide),
    by decide⟩

/-- C7.  Proxy-value normalization ensures the fragment portion (the part
after `'#'`) begins with `'/'`, inserting one when missing; a malformed proxy
value (whose split on `'#'` does not have exactly two parts, i.e. no `'#'` or
more than one) is returned unchanged after a logged warning — the function is
total and never raises to its caller. -/
theorem C7_normalize_fragment (v : String) :
    (∀ a b, pySplit '#' v = [a, b] →
      ∃ a2 b2, pySplit '#' (normalize_m_proxy_value v) = [a2, b2]
        ∧ pyStartsWith "/" b2 = true)
    ∧ ((pySplit '#' v).length ≠ 2 → normalize_m_proxy_value v = v) := by
  constructor
  · intro a b h
    by_cases hb : pyStartsWith "/" b = false
    · have hnv : normalize_m_proxy_value v = a ++ "#/" ++ b := by
        unfold normalize_m_proxy_value
        rw [h]
        simp [hb]
      have hpair := pySplit_eq_pair h
      have hbmem : '#' ∉ b.data :=
        splitOnChar_not_mem '#' v.data b.data
          (by rw [hpair]; exact List.mem_cons_of_mem _ (List.mem_cons_self _ _))
      have hamem : '#' ∉ a.data :=
        splitOnChar_not_mem '#' v.data a.data (by rw [hpair]; exact List.mem_cons_self _ _)
      refine ⟨a, String.mk ('/' :: b.data), ?_, ?_⟩
      · rw [hnv]
        unfold pySplit
        rw [splitOnChar_hashSlash a b hbmem, splitOnChar_of_not_mem '#' a.data hamem]
        rfl
      · simp [pyStartsWith, List.isPrefixOf]
    · have hb2 : pyStartsWith "/" b = true := by
        cases hx : pyStartsWith "/" b
        · exact absurd hx hb
        · rfl
      have hnv : normalize_m_proxy_value v = v := by
        unfold normalize_m_proxy_value
        rw [h]
        simp [hb2]
      exact ⟨a, b, by rw [hnv, h], hb2⟩
  · intro hlen
    unfold normalize_m_proxy_value
    cases hsp : pySplit '#' v with
    | nil => rfl
    | cons a t =>
      cases t with
      | nil => rfl
      | cons b t2 =>
        cases t2 with
        | nil => exact absurd (by rw [hsp]; rfl) hlen
        | cons c t3 => rfl

/-- Witness for C7 at a concrete proxy value missing the slash. -/
theorem C7_normalize_fragment_witness :
    ∃ a2 b2,
      pySplit '#' (normalize_m_proxy_value "../uploads/1234/archive/5678#data")
        = [a2, b2] ∧ pyStartsWith "/" b2 = true :=
  (C7_normalize_fragment _).1 "../uploads/1234/archive/5678" "data" (by decide)

/-- C8.  The authenticated PUT of `put_nomad_request` raises to the caller
exactly when the HTTP response status is non-success (`response.ok` false,
i.e. status ≥ 400), with no retry; on a success status it returns the parsed
JSON response body. -/
theorem C8_put_request_error_handling (r : HttpResponse) :
    ((∃ msg, put_nomad_request r = Except.error msg) ↔ response_ok r = false)
    ∧ (response_ok r = true → put_nomad_request r = Except.ok r.body) := by
  constructor
  · constructor
    · rintro ⟨msg, hmsg⟩
      cases hok : response_ok r with
      | false => rfl
      | true => simp [put_nomad_request, hok] at hmsg
    · intro h
      exact ⟨"Unexpected response " ++ r.body, by simp [put_nomad_request, h]⟩
  · intro h
    simp [put_nomad_request, h]

/-- Witness for C8 at a success and a failure response. -/
theorem C8_put_request_witness :
    put_nomad_request { status := 200, body := "ok" } = Except.ok "ok"
    ∧ (∃ msg, put_nomad_request { status := 500, body := "err" } = Except.error msg) :=
  ⟨(C8_put_request_error_handling { status := 200, body := "ok" }).2 (by decide),
    (C8_put_request_error_handling { status := 500, body := "err" }).1.mpr (by decide)⟩

/-- C9.  `ELNXRDJupyterAnalysis.normalize` overwrites `analysis_type` with
`"XRD"` before any other processing: the whole normalization result is
independent of the stored analysis type, the resulting type is `"XRD"`, and
the resulting notebook file name is the canonical one for type `"XRD"` (so
the predefined cells written are those of the XRD type). -/
theorem C9_xrd_normalize_overwrites_type (get_function_source : String → List String)
    (installation_url entry_id : String) (resolve : String → Option RSection)
    (entries : List Entry) (s : ELNState) (store : RawStore) (t : String) :
    xrd_normalize get_function_source installation_url entry_id resolve entries
        { s with analysis_type := t } store
      = xrd_normalize get_function_source installation_url entry_id resolve entries s store
    ∧ (xrd_normalize get_function_source installation_url entry_id resolve entries
        s store).1.analysis_type = "XRD"
    ∧ (xrd_normalize get_function_source installation_url entry_id resolve entries
        s store).1.notebook = some (jupyter_file_name s.name "XRD")
    ∧ xrd_normalize get_function_source installation_url entry_id resolve entries s store
        = eln_normalize get_function_source installation_url entry_id resolve entries
            { s with analysis_type := "XRD" } store := by
  refine ⟨rfl, ?_, ?_, rfl⟩
  · simp only [xrd_normalize, eln_normalize]
    rw [set_jupyter_notebook_name_fst]
    split <;> rfl
  · simp only [xrd_normalize, eln_normalize]
    rw [set_jupyter_notebook_name_fst]
    split <;> rfl

/-- C10.  `create_unique_filename` returns `{prefix}_{i}.{suffix}` for the
least index `i` whose file name does not exist, and the search terminates
whenever such an index exists (any fuel bound of at least that index
suffices). -/
theorem C10_create_unique_filename (ex : String → Bool)
    (filePrefix fileSuffix : String) (i0 : Nat)
    (hfree : ex (unique_template filePrefix fileSuffix i0) = false)
    (hmin : ∀ j, j < i0 → ex (unique_template filePrefix fileSuffix j) = true)
    (fuel : Nat) (hfuel : i0 ≤ fuel) :
    create_unique_filename ex filePrefix fileSuffix fuel
      = some (unique_template filePrefix fileSuffix i0) := by
  cases i0 with
  | zero => simp [create_unique_filename, hfree]
  | succ k =>
    have h0 := hmin 0 (Nat.succ_pos k)
    simp only [create_unique_filename, h0]
    simp only [Bool.true_eq_false, if_false]
    exact create_unique_filename_loop_finds ex filePrefix fileSuffix (k + 1) hfree hmin
      fuel 0 (Nat.succ_pos k) (by omega)

/-- Witness for C10: with `a_0.b` taken, the first free name is `a_1.b`. -/
theorem C10_create_unique_filename_witness :
    create_unique_filename (fun n => n == "a_0.b") "a" "b" 3
      = some (unique_template "a" "b" 1) :=
  C10_create_unique_filename (fun n => n == "a_0.b") "a" "b" 1
    (by decide) (by decide) 3 (by decide)

end NomadAnalysis
